import Mathlib

/-!
Verification development for the escort-mission game repository.

The grid / pathfinding core (`LevelMap`, `Neighbours`, `isFreeAt`,
`simplifyPath`, `CreateMap`) is embedded from `gamescreen.go`.  Go's
`image.Point` becomes the structure `Pt` with `Int` components.  Go slice
indexing `m[p.Y][p.X]` panics when the index is out of range; the embedding
makes this partiality explicit: an access out of range yields `none`, and
`none` propagates through every computation that would have panicked.
-/

namespace EscortMission

/-- Pt mirrors Go's image.Point: a pair of machine integers. -/
@[ext]
structure Pt where
  x : Int
  y : Int
deriving DecidableEq, Repr

/-- Addition of points, mirroring image.Point.Add. -/
def Pt.add (p q : Pt) : Pt := ⟨p.x + q.x, p.y + q.y⟩

/-- Subtraction of points, mirroring image.Point.Sub: `p.sub q` is p - q. -/
def Pt.sub (p q : Pt) : Pt := ⟨p.x - q.x, p.y - q.y⟩

/-- LevelMap mirrors Go's `type LevelMap [][]int`: rows first, `m[y][x]`. -/
abbrev LevelMap := List (List Int)

/-- Indexing a Go slice with an `int`: out-of-range yields `none` (a panic in Go). -/
def getI {α : Type} (l : List α) (i : Int) : Option α :=
  if i < 0 then none else l.get? i.toNat

/-- CreateMap from gamescreen.go: an h-by-w map of zeroes (all cells free). -/
def CreateMap (w h : Nat) : LevelMap :=
  List.replicate h (List.replicate w 0)

/-- isFreeAt from gamescreen.go: `m[p.Y][p.X] == 0`, with the partiality of the
two unchecked slice accesses made explicit (`none` = Go panic). -/
def isFreeAt (m : LevelMap) (p : Pt) : Option Bool :=
  match getI m p.y with
  | some row =>
    match getI row p.x with
    | some v => some (v == 0)
    | none => none
  | none => none

/-- The four orthogonal offsets of Neighbours, in source order (N, E, S, W). -/
def offsets : List Pt := [⟨0, -1⟩, ⟨1, 0⟩, ⟨0, 1⟩, ⟨-1, 0⟩]

/-- The four diagonal offsets of Neighbours, in source order (NE, SE, SW, NW). -/
def offsetsDiag : List Pt := [⟨1, -1⟩, ⟨1, 1⟩, ⟨-1, 1⟩, ⟨-1, -1⟩]

/-- The short-circuit conjunction `isFreeAt(q) && isFreeAt(q1) && isFreeAt(q2)`
from the diagonal branch of Neighbours: `q` is the diagonal cell, `q1` the
orthogonal cell sharing its row, `q2` the orthogonal cell sharing its column.
A `none` (panicking access) only propagates from a conjunct that is reached. -/
def diagFree (m : LevelMap) (p o : Pt) : Option Bool :=
  match isFreeAt m (p.add o) with
  | none => none
  | some false => some false
  | some true =>
    match isFreeAt m (p.add ⟨0, o.y⟩) with
    | none => none
    | some false => some false
    | some true => isFreeAt m (p.add ⟨o.x, 0⟩)

/-- One iteration of the append-if-free loops inside Neighbours. -/
def stepAcc (check : Pt → Option Bool) (p : Pt) (acc : Option (List Pt)) (o : Pt) :
    Option (List Pt) :=
  match acc with
  | none => none
  | some l =>
    match check o with
    | none => none
    | some true => some (l ++ [p.add o])
    | some false => some l

/-- Neighbours from gamescreen.go: diagonal offsets are checked first with the
corridor-width rule, then the orthogonal offsets; the result is `none` as soon
as any performed access is out of range (the Go code would panic there). -/
def Neighbours (m : LevelMap) (p : Pt) : Option (List Pt) :=
  offsets.foldl (stepAcc (fun o => isFreeAt m (p.add o)) p)
    (offsetsDiag.foldl (stepAcc (diagFree m p) p) (some []))

/-- simplifyPath from gamescreen.go, written as structural recursion on the
path with the running `prev` direction; `prev` starts at image.Pt(0, 0). -/
def simplifyAux (prev : Pt) : List Pt → List Pt
  | [] => []
  | [p] => [p]
  | p :: q :: rest =>
    if prev = q.sub p then simplifyAux prev (q :: rest)
    else p :: simplifyAux (q.sub p) (q :: rest)

/-- simplifyPath removes interior points of runs sharing one direction vector. -/
def simplifyPath (path : List Pt) : List Pt :=
  simplifyAux ⟨0, 0⟩ path

/-- A cell is in bounds when it lies in [0,w) x [0,h). -/
def InBounds (w h : Nat) (p : Pt) : Prop :=
  0 ≤ p.x ∧ p.x < (w : Int) ∧ 0 ≤ p.y ∧ p.y < (h : Int)

instance (w h : Nat) (p : Pt) : Decidable (InBounds w h p) := by
  unfold InBounds; infer_instance

/-- A level map is well formed for dimensions w, h when it has h rows of w cells. -/
def WellFormed (m : LevelMap) (w h : Nat) : Prop :=
  m.length = h ∧ ∀ row ∈ m, row.length = w

instance (m : LevelMap) (w h : Nat) : Decidable (WellFormed m w h) := by
  unfold WellFormed; infer_instance

/-- A cell of an in-bounds grid is on the border when it touches an extreme row
or column. -/
def OnBorder (w h : Nat) (p : Pt) : Prop :=
  p.x = 0 ∨ p.x = (w : Int) - 1 ∨ p.y = 0 ∨ p.y = (h : Int) - 1

instance (w h : Nat) (p : Pt) : Decidable (OnBorder w h p) := by
  unfold OnBorder; infer_instance

theorem Pt.add_right_inj (p : Pt) {a b : Pt} : p.add a = p.add b ↔ a = b := by
  constructor
  · intro h
    have hx := congrArg Pt.x h
    have hy := congrArg Pt.y h
    simp only [Pt.add] at hx hy
    ext <;> omega
  · intro h; rw [h]

theorem foldl_stepAcc_none (check : Pt → Option Bool) (p : Pt) :
    ∀ os : List Pt, os.foldl (stepAcc check p) none = none := by
  intro os
  induction os with
  | nil => rfl
  | cons o os ih => simpa [List.foldl, stepAcc] using ih

theorem foldl_stepAcc_char (check : Pt → Option Bool) (p : Pt) :
    ∀ (os : List Pt) (acc l : List Pt),
      os.foldl (stepAcc check p) (some acc) = some l →
      l = acc ++ (os.filter (fun o => decide (check o = some true))).map p.add ∧
        ∀ o ∈ os, check o ≠ none := by
  intro os
  induction os with
  | nil =>
    intro acc l h
    simp only [List.foldl] at h
    cases h
    simp
  | cons o os ih =>
    intro acc l h
    simp only [List.foldl] at h
    rcases hc : check o with _ | b
    · rw [show stepAcc check p (some acc) o = none by simp [stepAcc, hc]] at h
      rw [foldl_stepAcc_none] at h
      exact absurd h (by simp)
    · cases b
      · rw [show stepAcc check p (some acc) o = some acc by simp [stepAcc, hc]] at h
        obtain ⟨hl, hrest⟩ := ih acc l h
        refine ⟨?_, ?_⟩
        · simpa [List.filter, hc] using hl
        · intro o' ho'
          rcases List.mem_cons.mp ho' with rfl | ho'
          · simp [hc]
          · exact hrest o' ho'
      · rw [show stepAcc check p (some acc) o = some (acc ++ [p.add o]) by
          simp [stepAcc, hc]] at h
        obtain ⟨hl, hrest⟩ := ih (acc ++ [p.add o]) l h
        refine ⟨?_, ?_⟩
        · simp only [List.filter, hc]
          simpa using hl
        · intro o' ho'
          rcases List.mem_cons.mp ho' with rfl | ho'
          · simp [hc]
          · exact hrest o' ho'

theorem diagFree_eq_true_iff (m : LevelMap) (p o : Pt) :
    diagFree m p o = some true ↔
      isFreeAt m (p.add o) = some true ∧ isFreeAt m (p.add ⟨0, o.y⟩) = some true ∧
        isFreeAt m (p.add ⟨o.x, 0⟩) = some true := by
  unfold diagFree
  rcases h1 : isFreeAt m (p.add o) with _ | b1
  · simp
  · cases b1
    · simp
    · rcases h2 : isFreeAt m (p.add ⟨0, o.y⟩) with _ | b2
      · simp
      · cases b2 <;> simp

/-- Characterization of a successful Neighbours call: the result is the
diagonal survivors (in source order) followed by the orthogonal survivors,
and every check that the loops perform stayed in range. -/
theorem Neighbours_char (m : LevelMap) (p : Pt) (ns : List Pt)
    (h : Neighbours m p = some ns) :
    ns = (offsetsDiag.filter (fun o => decide (diagFree m p o = some true))).map p.add ++
        (offsets.filter (fun o => decide (isFreeAt m (p.add o) = some true))).map p.add ∧
      (∀ o ∈ offsetsDiag, diagFree m p o ≠ none) ∧
      ∀ o ∈ offsets, isFreeAt m (p.add o) ≠ none := by
  unfold Neighbours at h
  rcases hd : offsetsDiag.foldl (stepAcc (diagFree m p) p) (some []) with _ | dl
  · rw [hd, foldl_stepAcc_none] at h
    exact absurd h (by simp)
  · rw [hd] at h
    obtain ⟨hdl, hdiag⟩ := foldl_stepAcc_char (diagFree m p) p offsetsDiag [] dl hd
    obtain ⟨hol, horth⟩ :=
      foldl_stepAcc_char (fun o => isFreeAt m (p.add o)) p offsets dl ns h
    refine ⟨?_, hdiag, horth⟩
    rw [hol, hdl]
    simp

/-- The property claimed of Neighbours on a cell p with successful result ns:
only passable cells, all adjacent to p, at most 8 of them, and a diagonal
neighbour appears exactly when the corridor-width rule admits it. -/
def NeighboursOK (m : LevelMap) (p : Pt) (ns : List Pt) : Prop :=
  ns.length ≤ 8 ∧
    (∀ q ∈ ns, isFreeAt m q = some true ∧ q ≠ p ∧
      q.x - p.x ≤ 1 ∧ p.x - q.x ≤ 1 ∧ q.y - p.y ≤ 1 ∧ p.y - q.y ≤ 1) ∧
    ∀ o ∈ offsetsDiag,
      (p.add o ∈ ns ↔
        isFreeAt m (p.add o) = some true ∧ isFreeAt m (p.add ⟨0, o.y⟩) = some true ∧
          isFreeAt m (p.add ⟨o.x, 0⟩) = some true)

theorem isFreeAt_of_diagFree_true {m : LevelMap} {p o : Pt}
    (h : diagFree m p o = some true) : isFreeAt m (p.add o) = some true :=
  ((diagFree_eq_true_iff m p o).mp h).1

/-- Claim C1: for every in-bounds cell p of a well-formed LevelMap, a
successful Neighbours(p) call returns only passable adjacent cells, at most 8,
and a diagonal neighbour p+o is included if and only if the diagonal cell, the
orthogonal cell sharing its row and the orthogonal cell sharing its column are
all three free. -/
theorem Neighbours_corridor_rule (m : LevelMap) (w h : Nat) (p : Pt) (ns : List Pt)
    (_hwf : WellFormed m w h) (_hp : InBounds w h p)
    (hns : Neighbours m p = some ns) : NeighboursOK m p ns := by
  obtain ⟨hshape, hdiag, horth⟩ := Neighbours_char m p ns hns
  refine ⟨?_, ?_, ?_⟩
  · rw [hshape]
    have h1 := List.length_filter_le
      (fun o => decide (diagFree m p o = some true)) offsetsDiag
    have h2 := List.length_filter_le
      (fun o => decide (isFreeAt m (p.add o) = some true)) offsets
    have e1 : offsetsDiag.length = 4 := rfl
    have e2 : offsets.length = 4 := rfl
    simp only [List.length_append, List.length_map]
    omega
  · intro q hq
    rw [hshape] at hq
    rcases List.mem_append.mp hq with hq | hq
    · obtain ⟨o, hof, rfl⟩ := List.mem_map.mp hq
      obtain ⟨ho, hdf⟩ := List.mem_filter.mp hof
      refine ⟨isFreeAt_of_diagFree_true (of_decide_eq_true hdf), ?_⟩
      fin_cases ho <;> simp [Pt.add, Pt.ext_iff]
    · obtain ⟨o, hof, rfl⟩ := List.mem_map.mp hq
      obtain ⟨ho, hfr⟩ := List.mem_filter.mp hof
      refine ⟨of_decide_eq_true hfr, ?_⟩
      fin_cases ho <;> simp [Pt.add, Pt.ext_iff]
  · intro o ho
    constructor
    · intro hmem
      rw [hshape] at hmem
      rcases List.mem_append.mp hmem with hmem | hmem
      · obtain ⟨o', hof, heq⟩ := List.mem_map.mp hmem
        obtain ⟨ho', hdf⟩ := List.mem_filter.mp hof
        rw [(Pt.add_right_inj p).mp heq] at hdf
        exact (diagFree_eq_true_iff m p o).mp (of_decide_eq_true hdf)
      · obtain ⟨o', hof, heq⟩ := List.mem_map.mp hmem
        obtain ⟨ho', _⟩ := List.mem_filter.mp hof
        rw [(Pt.add_right_inj p).mp heq] at ho'
        fin_cases ho <;> exact absurd ho' (by decide)
    · intro hfree
      rw [hshape]
      refine List.mem_append.mpr (Or.inl (List.mem_map.mpr ⟨o, ?_, rfl⟩))
      exact List.mem_filter.mpr
        ⟨ho, decide_eq_true ((diagFree_eq_true_iff m p o).mpr hfree)⟩

/-- Witness for claim C1: the all-free 3-by-3 map at its interior cell, where
all eight neighbours are returned. -/
theorem Neighbours_corridor_rule_witness :
    WellFormed (CreateMap 3 3) 3 3 ∧ InBounds 3 3 ⟨1, 1⟩ ∧
      Neighbours (CreateMap 3 3) ⟨1, 1⟩ =
        some [⟨2, 0⟩, ⟨2, 2⟩, ⟨0, 2⟩, ⟨0, 0⟩, ⟨1, 0⟩, ⟨2, 1⟩, ⟨1, 2⟩, ⟨0, 1⟩] ∧
      NeighboursOK (CreateMap 3 3) ⟨1, 1⟩
        [⟨2, 0⟩, ⟨2, 2⟩, ⟨0, 2⟩, ⟨0, 0⟩, ⟨1, 0⟩, ⟨2, 1⟩, ⟨1, 2⟩, ⟨0, 1⟩] :=
  ⟨by decide, by decide, by decide,
    Neighbours_corridor_rule (CreateMap 3 3) 3 3 ⟨1, 1⟩ _ (by decide) (by decide)
      (by decide)⟩

theorem getI_eq_none {α : Type} {l : List α} {i : Int}
    (h : i < 0 ∨ l.length ≤ i.toNat) : getI l i = none := by
  unfold getI
  rcases h with h | h
  · simp [h]
  · rcases lt_or_ge i 0 with h0 | h0
    · simp [h0]
    · rw [if_neg (not_lt.mpr h0)]
      exact List.get?_eq_none.mpr h

theorem getI_mem {α : Type} {l : List α} {i : Int} {a : α} (h : getI l i = some a) :
    a ∈ l := by
  unfold getI at h
  split at h
  · exact absurd h (by simp)
  · exact List.get?_mem h

theorem isFreeAt_none_of_not_inBounds {m : LevelMap} {w h : Nat} {p : Pt}
    (hwf : WellFormed m w h) (hp : ¬ InBounds w h p) : isFreeAt m p = none := by
  obtain ⟨hlen, hrows⟩ := hwf
  unfold InBounds at hp
  unfold isFreeAt
  by_cases hy : p.y < 0 ∨ (h : Int) ≤ p.y
  · rw [getI_eq_none (by rw [hlen]; omega)]
  · rcases hrow : getI m p.y with _ | row
    · rfl
    · have hrw : row.length = w := hrows row (getI_mem hrow)
      have hx : getI row p.x = none := getI_eq_none (by rw [hrw]; omega)
      show (match getI row p.x with
        | some v => some (v == 0)
        | none => none) = none
      rw [hx]

theorem foldl_stepAcc_break (check : Pt → Option Bool) (p : Pt) :
    ∀ (os : List Pt) (acc : Option (List Pt)), (∃ o ∈ os, check o = none) →
      os.foldl (stepAcc check p) acc = none := by
  intro os
  induction os with
  | nil => rintro acc ⟨o, ho, _⟩; exact absurd ho (by simp)
  | cons o os ih =>
    rintro acc ⟨o', ho', hco'⟩
    rcases List.mem_cons.mp ho' with rfl | ho'
    · have hstep : stepAcc check p acc o' = none := by
        cases acc <;> simp [stepAcc, hco']
      simp only [List.foldl, hstep]
      exact foldl_stepAcc_none check p os
    · exact ih _ ⟨o', ho', hco'⟩

theorem diagFree_none_of_first_none {m : LevelMap} {p o : Pt}
    (h : isFreeAt m (p.add o) = none) : diagFree m p o = none := by
  unfold diagFree
  rw [h]

/-- Claim C3, counterexample: on the all-free 2-by-2 map the cell (0,0) is in
bounds, yet Neighbours already fails on it because its very first diagonal
check reads the cell (1,-1), which lies outside the grid: the unchecked slice
access the claim rules out (a Go index-out-of-range panic, `none` here). -/
theorem Neighbours_border_counterexample :
    InBounds 2 2 ⟨0, 0⟩ ∧ isFreeAt (CreateMap 2 2) ⟨0, 0⟩ = some true ∧
      ¬ InBounds 2 2 ⟨1, -1⟩ ∧ isFreeAt (CreateMap 2 2) ⟨1, -1⟩ = none ∧
      Neighbours (CreateMap 2 2) ⟨0, 0⟩ = none := by
  refine ⟨by decide, by decide, by decide, by decide, by decide⟩

/-- Claim C3, amended: the grid queries neither reject nor clamp out-of-bounds
coordinates; they perform the unchecked array access.  isFreeAt on any
out-of-bounds cell of a well-formed map is an out-of-range access (`none`,
a panic in Go), and Neighbours on any in-bounds border cell reaches such an
access through one of its diagonal probes and therefore also fails. -/
theorem outOfBounds_access_unchecked (m : LevelMap) (w h : Nat) (p : Pt)
    (hwf : WellFormed m w h) :
    (¬ InBounds w h p → isFreeAt m p = none) ∧
      (InBounds w h p → OnBorder w h p → Neighbours m p = none) := by
  constructor
  · intro hp
    exact isFreeAt_none_of_not_inBounds hwf hp
  · intro hp hb
    obtain ⟨hx0, hxw, hy0, hyh⟩ := hp
    have key : ∃ o ∈ offsetsDiag, diagFree m p o = none := by
      rcases hb with hb | hb | hb | hb
      · refine ⟨⟨-1, 1⟩, by decide, diagFree_none_of_first_none ?_⟩
        refine isFreeAt_none_of_not_inBounds hwf ?_
        unfold InBounds
        simp only [Pt.add]
        omega
      · refine ⟨⟨1, -1⟩, by decide, diagFree_none_of_first_none ?_⟩
        refine isFreeAt_none_of_not_inBounds hwf ?_
        unfold InBounds
        simp only [Pt.add]
        omega
      · refine ⟨⟨1, -1⟩, by decide, diagFree_none_of_first_none ?_⟩
        refine isFreeAt_none_of_not_inBounds hwf ?_
        unfold InBounds
        simp only [Pt.add]
        omega
      · refine ⟨⟨1, 1⟩, by decide, diagFree_none_of_first_none ?_⟩
        refine isFreeAt_none_of_not_inBounds hwf ?_
        unfold InBounds
        simp only [Pt.add]
        omega
    unfold Neighbours
    rw [foldl_stepAcc_break (diagFree m p) p offsetsDiag (some []) key]
    exact foldl_stepAcc_none _ p offsets

/-- Witness for the amended claim C3, on the all-free 3-by-3 map: the
out-of-bounds cell (-1,0) is an unchecked failing access, and the in-bounds
border cell (0,1) makes Neighbours fail. -/
theorem outOfBounds_access_unchecked_witness :
    WellFormed (CreateMap 3 3) 3 3 ∧ ¬ InBounds 3 3 ⟨-1, 0⟩ ∧
      isFreeAt (CreateMap 3 3) ⟨-1, 0⟩ = none ∧
      InBounds 3 3 ⟨0, 1⟩ ∧ OnBorder 3 3 ⟨0, 1⟩ ∧
      Neighbours (CreateMap 3 3) ⟨0, 1⟩ = none :=
  ⟨by decide, by decide,
    (outOfBounds_access_unchecked (CreateMap 3 3) 3 3 ⟨-1, 0⟩ (by decide)).1 (by decide),
    by decide, by decide,
    (outOfBounds_access_unchecked (CreateMap 3 3) 3 3 ⟨0, 1⟩ (by decide)).2 (by decide)
      (by decide)⟩

/-- The eight king-move directions: exactly the steps of an A* path expanded
through Neighbours (the four orthogonal and four diagonal unit offsets). -/
def kingMoves : List Pt := offsets ++ offsetsDiag

/-- diffsKing path holds when every consecutive difference of the path is one
of the eight king moves; A* outputs over this grid have this shape. -/
def diffsKing : List Pt → Bool
  | [] => true
  | [_] => true
  | p :: q :: rest => decide (q.sub p ∈ kingMoves) && diffsKing (q :: rest)

/-- Scalar multiple of a point by a natural number. -/
def Pt.scale (n : Nat) (v : Pt) : Pt := ⟨n * v.x, n * v.y⟩

/-- NC prev l says a simplification pass entered with direction prev keeps
every point of l: no two consecutive differences collapse. -/
def NC : Pt → List Pt → Prop
  | _, [] => True
  | _, [_] => True
  | prev, p :: q :: rest => prev ≠ q.sub p ∧ NC (q.sub p) (q :: rest)

theorem simplifyAux_eq_of_NC : ∀ (l : List Pt) (prev : Pt), NC prev l →
    simplifyAux prev l = l := by
  intro l
  induction l with
  | nil => intro prev _; rfl
  | cons p l ih =>
    intro prev hnc
    cases l with
    | nil => rfl
    | cons q rest =>
      obtain ⟨hne, hnc'⟩ := hnc
      rw [simplifyAux, if_neg hne, ih (q.sub p) hnc']

theorem simplifyAux_head (v : Pt) : ∀ (rest : List Pt) (q : Pt), ∃ k : Nat,
    (simplifyAux v (q :: rest)).head? = some (q.add (Pt.scale k v)) := by
  intro rest
  induction rest with
  | nil =>
    intro q
    refine ⟨0, ?_⟩
    show some q = some (q.add (Pt.scale 0 v))
    have : q.add (Pt.scale 0 v) = q := by
      ext <;> simp [Pt.add, Pt.scale]
    rw [this]
  | cons r rs ih =>
    intro q
    by_cases hv : v = r.sub q
    · obtain ⟨k, hk⟩ := ih r
      refine ⟨k + 1, ?_⟩
      rw [simplifyAux, if_pos hv, hk]
      have : r.add (Pt.scale k v) = q.add (Pt.scale (k + 1) v) := by
        have hr : r = q.add v := by
          rw [hv]
          ext <;> simp [Pt.add, Pt.sub]
        subst hr
        ext <;> simp [Pt.add, Pt.scale] <;> ring
      rw [this]
    · refine ⟨0, ?_⟩
      rw [simplifyAux, if_neg hv]
      show some q = some (q.add (Pt.scale 0 v))
      have : q.add (Pt.scale 0 v) = q := by
        ext <;> simp [Pt.add, Pt.scale]
      rw [this]

theorem king_ne_zero {v : Pt} (hv : v ∈ kingMoves) : v ≠ ⟨0, 0⟩ := by
  intro h
  subst h
  revert hv
  decide

theorem scale_ne_zero {v : Pt} (hv : v ∈ kingMoves) {k : Nat} (hk : 1 ≤ k) :
    Pt.scale k v ≠ ⟨0, 0⟩ := by
  fin_cases hv <;> simp [Pt.scale, Pt.ext_iff] <;> omega

theorem scale_ne_scale {u v : Pt} (hu : u ∈ kingMoves) (hv : v ∈ kingMoves)
    (huv : u ≠ v) {a b : Nat} (ha : 1 ≤ a) (hb : 1 ≤ b) :
    Pt.scale a u ≠ Pt.scale b v := by
  fin_cases hu <;> fin_cases hv <;> simp_all [Pt.scale, Pt.ext_iff] <;> omega

theorem sub_add_scale (q p : Pt) (k : Nat) :
    (q.add (Pt.scale k (q.sub p))).sub p = Pt.scale (k + 1) (q.sub p) := by
  ext <;> simp [Pt.add, Pt.sub, Pt.scale] <;> ring

theorem NC_simplifyAux : ∀ (l : List Pt) (v : Pt), v ∈ kingMoves →
    diffsKing l = true → ∀ m : Nat, 1 ≤ m → NC (Pt.scale m v) (simplifyAux v l) := by
  intro l
  induction l with
  | nil => intro v _ _ m _; exact trivial
  | cons q l ih =>
    intro v hv hd m hm
    cases l with
    | nil => exact trivial
    | cons r rs =>
      have hd' := hd
      rw [diffsKing, Bool.and_eq_true, decide_eq_true_eq] at hd'
      obtain ⟨hw, hdk⟩ := hd'
      by_cases hvw : v = r.sub q
      · rw [simplifyAux, if_pos hvw]
        exact ih v hv hdk m hm
      · rw [simplifyAux, if_neg hvw]
        obtain ⟨k, hk⟩ := simplifyAux_head (r.sub q) rs r
        rcases hout : simplifyAux (r.sub q) (r :: rs) with _ | ⟨h1, t1⟩
        · exact trivial
        · rw [hout] at hk
          simp only [List.head?, Option.some.injEq] at hk
          refine ⟨?_, ?_⟩
          · rw [hk, sub_add_scale r q k]
            exact scale_ne_scale hv hw hvw hm (by omega)
          · have he : h1.sub q = Pt.scale (k + 1) (r.sub q) := by
              rw [hk, sub_add_scale r q k]
            rw [he, ← hout]
            exact ih (r.sub q) hw hdk (k + 1) (by omega)

/-- Claim C7, counterexample: simplifyPath is not idempotent.  On the path
(0,0),(1,0),(2,0),(4,0) the first pass keeps (2,0) because the step to (4,0)
has a different direction vector, yet the two kept output steps are both
(2,0), so a second pass removes the middle point. -/
theorem simplifyPath_not_idempotent :
    simplifyPath [⟨0, 0⟩, ⟨1, 0⟩, ⟨2, 0⟩, ⟨4, 0⟩] = [⟨0, 0⟩, ⟨2, 0⟩, ⟨4, 0⟩] ∧
      simplifyPath (simplifyPath [⟨0, 0⟩, ⟨1, 0⟩, ⟨2, 0⟩, ⟨4, 0⟩]) ≠
        simplifyPath [⟨0, 0⟩, ⟨1, 0⟩, ⟨2, 0⟩, ⟨4, 0⟩] := by
  decide

/-- Claim C7, amended: simplifyPath is idempotent on every path whose
consecutive differences are king moves (the shape of the A* outputs this
routine is applied to); it is not idempotent on arbitrary point sequences. -/
theorem simplifyPath_idem_king (path : List Pt) (hk : diffsKing path = true) :
    simplifyPath (simplifyPath path) = simplifyPath path := by
  cases path with
  | nil => rfl
  | cons p l =>
    cases l with
    | nil => rfl
    | cons q rest =>
      rw [diffsKing, Bool.and_eq_true, decide_eq_true_eq] at hk
      obtain ⟨hv, hdk⟩ := hk
      have h0 : (⟨0, 0⟩ : Pt) ≠ q.sub p := fun h => king_ne_zero hv h.symm
      unfold simplifyPath
      rw [simplifyAux, if_neg h0]
      apply simplifyAux_eq_of_NC
      obtain ⟨k, hk'⟩ := simplifyAux_head (q.sub p) rest q
      rcases hout : simplifyAux (q.sub p) (q :: rest) with _ | ⟨h1, t1⟩
      · exact trivial
      · rw [hout] at hk'
        simp only [List.head?, Option.some.injEq] at hk'
        refine ⟨?_, ?_⟩
        · rw [hk', sub_add_scale q p k]
          exact Ne.symm (scale_ne_zero hv (by omega))
        · have he : h1.sub p = Pt.scale (k + 1) (q.sub p) := by
            rw [hk', sub_add_scale q p k]
          rw [he, ← hout]
          exact NC_simplifyAux (q :: rest) (q.sub p) hv hdk (k + 1) (by omega)

/-- Witness for the amended claim C7: a short king-move path on which the
double application agrees with the single one. -/
theorem simplifyPath_idem_king_witness :
    diffsKing [⟨0, 0⟩, ⟨1, 0⟩, ⟨2, 1⟩, ⟨3, 2⟩, ⟨3, 3⟩] = true ∧
      simplifyPath (simplifyPath [⟨0, 0⟩, ⟨1, 0⟩, ⟨2, 1⟩, ⟨3, 2⟩, ⟨3, 3⟩]) =
        simplifyPath [⟨0, 0⟩, ⟨1, 0⟩, ⟨2, 1⟩, ⟨3, 2⟩, ⟨3, 3⟩] :=
  ⟨by decide, simplifyPath_idem_king _ (by decide)⟩

/-!
Boss state machine, embedded from the Boss file (`Boss.Update`,
`Boss.outterAnimationBasedStateChanges`, `Boss.Die`).  The inner `Zombie`
type, its `Hit` method and the `Animate` helper live in repository files that
are not part of the sources here; those parts are modelled from the spec and
are marked as such below.  Sounds are tracked as a list of play events.
-/

/-- Sound and voice identifiers referenced by the sources. -/
inductive SoundId where
  | soundMusicBackground
  | soundGunShot
  | soundGunReload
  | soundDogBark
  | soundPlayerDies
  | soundHit1
  | soundDryFire
  | soundBigZombieDeath1
  | soundBigZombieDeath2
  | soundBigZombieScream
deriving DecidableEq, Repr

export SoundId (soundMusicBackground soundGunShot soundGunReload soundDogBark
  soundPlayerDies soundHit1 soundDryFire soundBigZombieDeath1
  soundBigZombieDeath2 soundBigZombieScream)

/-- Base zombie behaviour states, as referenced by the Boss dispatch switch
(zombie.go itself is not among the sources; the state names are taken from
their uses in the Boss file). -/
inductive ZombieState where
  | zombieIdle
  | zombieWalking
  | zombieHit
  | zombieDead
deriving DecidableEq, Repr

/-- Boss animation states (bossAnimationTags), as used by the Boss file. -/
inductive BossAnim where
  | bossIdle1
  | bossIdle2
  | bossIdle3
  | bossIdle4
  | bossWalking1
  | bossWalking2
  | bossWalking3
  | bossRunning
  | bossHit1
  | bossHit2
  | bossDeath1
  | bossDeath2
  | bossPhase2
deriving DecidableEq, Repr

/-- Frame range of one animation clip, the [From,To] pair of a sprite
FrameTag; the boss states are mapped to ranges by an arbitrary function. -/
structure FrameTag where
  tFrom : Nat
  tTo : Nat
deriving DecidableEq, Repr

/-- Modelled from the spec: the Animate helper is not among the sources; per
the spec each state's frame index is advanced once per tick inside the clip's
range [from,to], looping back to the first frame past the end or when the
state changed to a clip the current frame lies outside of. -/
def Animate (frame _tick : Nat) (ft : FrameTag) : Nat :=
  if frame < ft.tFrom ∨ ft.tTo ≤ frame then ft.tFrom else frame + 1

/-- The boss together with the pieces of the game state its Update touches:
the tick counter, the played sounds and the victory flag. -/
structure BossWorld where
  daemon : Bool
  state : BossAnim
  frame : Nat
  dead : Bool
  hitToDie : Int
  zstate : ZombieState
  speed : Rat
  tick : Nat
  sounds : List SoundId
  bossDefeated : Bool

/-- The two-dimensional dispatch switch at the top of Boss.Update: outer key
the remaining-hits value, inner key the base zombie state; unmatched
combinations leave the boss state unchanged. -/
def bossSelect (w : BossWorld) : BossAnim :=
  if w.daemon then
    if w.hitToDie = 2 then
      match w.zstate with
      | .zombieHit => .bossDeath1
      | .zombieIdle => .bossIdle4
      | .zombieWalking => .bossRunning
      | _ => w.state
    else if w.hitToDie = 1 then
      match w.zstate with
      | .zombieHit => .bossDeath2
      | _ => w.state
    else w.state
  else
    if w.hitToDie = 10 ∨ w.hitToDie = 9 ∨ w.hitToDie = 8 then
      match w.zstate with
      | .zombieIdle => .bossIdle1
      | .zombieWalking => .bossWalking1
      | .zombieHit => .bossHit1
      | _ => w.state
    else if w.hitToDie = 7 then
      match w.zstate with
      | .zombieHit => .bossHit1
      | .zombieIdle => .bossIdle2
      | .zombieWalking => .bossWalking2
      | _ => w.state
    else if w.hitToDie = 6 ∨ w.hitToDie = 5 then
      match w.zstate with
      | .zombieHit => .bossHit2
      | .zombieIdle => .bossIdle2
      | .zombieWalking => .bossWalking2
      | _ => w.state
    else if w.hitToDie = 4 ∨ w.hitToDie = 3 then
      match w.zstate with
      | .zombieHit => .bossHit2
      | .zombieIdle => .bossIdle3
      | .zombieWalking => .bossWalking3
      | _ => w.state
    else if w.hitToDie = 2 then
      match w.zstate with
      | .zombieHit => .bossDeath1
      | .zombieIdle => .bossIdle4
      | .zombieWalking => .bossRunning
      | _ => w.state
    else if w.hitToDie = 1 then
      match w.zstate with
      | .zombieHit => .bossDeath2
      | _ => w.state
    else w.state

/-- Boss.outterAnimationBasedStateChanges: the animation-complete callback;
`spr` is the zombieSprinterSpeed constant (defined in a file outside the
sources, so it is a parameter here).  Boss.Die additionally calls
Zombie.Die (removal from the world, outside the sources). -/
def bossAnimDone (spr : Rat) (w : BossWorld) : BossWorld :=
  match w.state with
  | .bossHit1 => { w with state := .bossWalking1, zstate := .zombieWalking }
  | .bossHit2 => { w with state := .bossWalking2, zstate := .zombieWalking }
  | .bossDeath1 =>
    { w with sounds := w.sounds ++ [soundBigZombieDeath1], daemon := true,
             speed := spr * 2, state := .bossPhase2, zstate := .zombieWalking }
  | .bossPhase2 =>
    { w with sounds := w.sounds ++ [soundBigZombieScream], state := .bossRunning,
             zstate := .zombieWalking }
  | .bossDeath2 =>
    { w with sounds := w.sounds ++ [soundBigZombieDeath2], dead := true,
             bossDefeated := true, zstate := .zombieDead }
  | _ => w

/-- The frame advance and completion check in the middle of Boss.Update. -/
def bossAfterAnim (ft : BossAnim → FrameTag) (spr : Rat) (w : BossWorld) : BossWorld :=
  if w.frame = (ft w.state).tTo then bossAnimDone spr w else w

/-- The tail of Boss.Update: the inner Zombie.Update runs unless the boss is
in one of the death or phase-transition clips (checked after the callback);
zombie.go is not among the sources, so its effect on the base state is an
arbitrary function `zu` (modelled from the spec: the base state machine maps
proximity events to idle/walking states and never touches boss fields). -/
def bossInnerGate (zu : ZombieState → ZombieState) (w : BossWorld) : BossWorld :=
  if w.state = .bossDeath1 ∨ w.state = .bossDeath2 ∨ w.state = .bossPhase2 then w
  else { w with zstate := zu w.zstate }

/-- Boss.Update: no effect when already dead (it returns an error), otherwise
state selection, then frame advance, then the animation-complete callback,
then the gated inner zombie update. -/
def bossUpdate (ft : BossAnim → FrameTag) (spr : Rat) (zu : ZombieState → ZombieState)
    (w : BossWorld) : BossWorld :=
  if w.dead then w
  else
    bossInnerGate zu (bossAfterAnim ft spr
      { w with state := bossSelect w,
               frame := Animate w.frame w.tick (ft (bossSelect w)) })

/-- Modelled from the spec: Zombie.Hit (zombie.go is not among the sources)
decrements the HitToDie countdown by one and puts the base state machine into
its hit state; Shoot calls it on the boss's collision object at any time. -/
def bossHit (w : BossWorld) : BossWorld :=
  { w with hitToDie := w.hitToDie - 1, zstate := .zombieHit }

/-- Events that reach the boss: a simulation tick (GameScreen.Update advances
the tick counter and then runs Boss.Update), or a registered gun hit. -/
inductive BossEvent where
  | tick
  | hit
deriving DecidableEq, Repr

/-- One event step of the boss subsystem. -/
def bossStep (ft : BossAnim → FrameTag) (spr : Rat) (zu : ZombieState → ZombieState) :
    BossEvent → BossWorld → BossWorld
  | .hit, w => bossHit w
  | .tick, w => bossUpdate ft spr zu { w with tick := w.tick + 1 }

/-- The boss as spawned: phase 1, ten hits to die, walking, first frame; the
initial speed is the spawning zombie speed constant, a parameter. -/
def bossInit (sp : Rat) : BossWorld :=
  { daemon := false, state := .bossWalking1, frame := 0, dead := false,
    hitToDie := 10, zstate := .zombieWalking, speed := sp, tick := 0,
    sounds := [], bossDefeated := false }

/-- Run the boss subsystem over a list of events from the initial state. -/
def bossExec (ft : BossAnim → FrameTag) (spr : Rat) (zu : ZombieState → ZombieState)
    (sp : Rat) (evs : List BossEvent) : BossWorld :=
  evs.foldl (fun w e => bossStep ft spr zu e w) (bossInit sp)

/-- A concrete frame-tag table for counterexample traces: every clip runs
over frames 0,1,2. -/
def ftC : BossAnim → FrameTag := fun _ => ⟨0, 2⟩

/-- The event trace that kills the boss while it is still in phase 1: eight
hits bring HitToDie to 2, the next tick starts the death1 clip, a ninth hit
lands while death1 is playing, and the following tick dispatches
(HitToDie=1, zombieHit) to bossDeath2, whose completion calls Die. -/
def quickKillTrace : List BossEvent :=
  [.hit, .hit, .hit, .hit, .hit, .hit, .hit, .hit, .tick, .hit, .tick]

/-- The trace quickKillTrace without its final tick: the boss is still alive,
HitToDie is 1, phase 1, base state hit, death1 clip at frame 1. -/
def nineHitTrace : List BossEvent :=
  [.hit, .hit, .hit, .hit, .hit, .hit, .hit, .hit, .tick, .hit]

/-- The trace that brings HitToDie to 2 and lets the death1 clip reach its
next-to-last frame: the next tick completes death1 and fires the phase
transition. -/
def deathOneTrace : List BossEvent :=
  [.hit, .hit, .hit, .hit, .hit, .hit, .hit, .hit, .tick]

/-- The eight hits that bring HitToDie from 10 down to 2. -/
def eightHitTrace : List BossEvent :=
  [.hit, .hit, .hit, .hit, .hit, .hit, .hit, .hit]

theorem bossInnerGate_dead (zu : ZombieState → ZombieState) (x : BossWorld) :
    (bossInnerGate zu x).dead = x.dead := by
  unfold bossInnerGate
  split <;> rfl

/-- Evaluation shape of a live Boss.Update once the dispatched state is known. -/
theorem bossUpdate_eval (ft : BossAnim → FrameTag) (spr : Rat)
    (zu : ZombieState → ZombieState) (w : BossWorld) (h0 : w.dead = false)
    (st : BossAnim) (hsel : bossSelect w = st) :
    bossUpdate ft spr zu w =
      bossInnerGate zu (bossAfterAnim ft spr
        { w with state := st, frame := Animate w.frame w.tick (ft st) }) := by
  unfold bossUpdate
  rw [if_neg (by simp [h0]), hsel]

/-- The Dead flag is set by Boss.Update only when the clip dispatched for the
tick is bossDeath2 and its animation completes; the victory flag is then set
in the same call. -/
theorem bossUpdate_dead_char (ft : BossAnim → FrameTag) (spr : Rat)
    (zu : ZombieState → ZombieState) (w : BossWorld) (h0 : w.dead = false)
    (h1 : (bossUpdate ft spr zu w).dead = true) :
    bossSelect w = .bossDeath2 ∧
      Animate w.frame w.tick (ft (bossSelect w)) = (ft (bossSelect w)).tTo ∧
      (bossUpdate ft spr zu w).bossDefeated = true := by
  rw [bossUpdate_eval ft spr zu w h0 (bossSelect w) rfl] at h1
  rw [bossInnerGate_dead] at h1
  simp only [bossAfterAnim] at h1
  by_cases hfr : Animate w.frame w.tick (ft (bossSelect w)) = (ft (bossSelect w)).tTo
  · rw [if_pos hfr] at h1
    cases hsel : bossSelect w
    all_goals rw [hsel] at h1
    all_goals solve
      | simp [bossAnimDone, h0] at h1
      | (rw [hsel] at hfr
         refine ⟨rfl, hfr, ?_⟩
         rw [bossUpdate_eval ft spr zu w h0 BossAnim.bossDeath2 hsel]
         simp [bossAfterAnim, bossAnimDone, bossInnerGate, hfr])
  · rw [if_neg hfr] at h1
    simp [h0] at h1

/-- Completing the death1 clip does not kill the boss: it turns on Daemon,
doubles the sprinter speed, plays the first death sound, keeps HitToDie,
and enters the bossPhase2 transition clip. -/
theorem bossUpdate_death1 (ft : BossAnim → FrameTag) (spr : Rat)
    (zu : ZombieState → ZombieState) (w : BossWorld) (h0 : w.dead = false)
    (hsel : bossSelect w = .bossDeath1)
    (hfr : Animate w.frame w.tick (ft .bossDeath1) = (ft .bossDeath1).tTo) :
    (bossUpdate ft spr zu w).daemon = true ∧
      (bossUpdate ft spr zu w).speed = spr * 2 ∧
      (bossUpdate ft spr zu w).state = .bossPhase2 ∧
      (bossUpdate ft spr zu w).dead = false ∧
      (bossUpdate ft spr zu w).hitToDie = w.hitToDie ∧
      (bossUpdate ft spr zu w).sounds = w.sounds ++ [soundBigZombieDeath1] := by
  rw [bossUpdate_eval ft spr zu w h0 .bossDeath1 hsel]
  simp [bossAfterAnim, bossAnimDone, bossInnerGate, hfr, h0]

/-- Completing the bossPhase2 transition clip plays the scream and hands over
to the bossRunning state. -/
theorem bossUpdate_phase2 (ft : BossAnim → FrameTag) (spr : Rat)
    (zu : ZombieState → ZombieState) (w : BossWorld) (h0 : w.dead = false)
    (hsel : bossSelect w = .bossPhase2)
    (hfr : Animate w.frame w.tick (ft .bossPhase2) = (ft .bossPhase2).tTo) :
    (bossUpdate ft spr zu w).state = .bossRunning ∧
      (bossUpdate ft spr zu w).sounds = w.sounds ++ [soundBigZombieScream] ∧
      (bossUpdate ft spr zu w).dead = false := by
  rw [bossUpdate_eval ft spr zu w h0 .bossPhase2 hsel]
  simp [bossAfterAnim, bossAnimDone, bossInnerGate, hfr, h0]

/-- Claim C2, counterexample: the boss reaches terminal death while still in
phase 1.  Eight hits bring HitToDie to 2, the next tick starts the death1
clip, a ninth hit lands during that clip, and the following tick dispatches
(HitToDie=1, hit) to bossDeath2, whose completion runs Die: Dead and the
victory flag are set although Daemon is still false and the phase-2
transition never happened. -/
theorem boss_phase1_terminal_death :
    (bossExec ftC 1 id 1 quickKillTrace).dead = true ∧
      (bossExec ftC 1 id 1 quickKillTrace).daemon = false ∧
      (bossExec ftC 1 id 1 quickKillTrace).bossDefeated = true ∧
      (bossExec ftC 1 id 1 quickKillTrace).sounds = [soundBigZombieDeath2] := by
  refine ⟨rfl, rfl, rfl, rfl⟩

/-- Claim C2, amended: for every boss state and event, the Dead flag (with the
victory flag) is set only by a tick on which the state dispatched for that
tick is bossDeath2 and the death2 clip completes; a hit never sets it.  The
phase-2 restriction of the original claim does not hold: the death2 dispatch
is reachable in phase 1 (see the counterexample). -/
theorem boss_dead_only_by_death2 (ft : BossAnim → FrameTag) (spr : Rat)
    (zu : ZombieState → ZombieState) (w : BossWorld) (e : BossEvent)
    (h0 : w.dead = false) (h1 : (bossStep ft spr zu e w).dead = true) :
    e = .tick ∧ bossSelect w = .bossDeath2 ∧
      Animate w.frame (w.tick + 1) (ft (bossSelect w)) = (ft (bossSelect w)).tTo ∧
      (bossStep ft spr zu e w).bossDefeated = true := by
  cases e with
  | hit => exact absurd h1 (by simp [bossStep, bossHit, h0])
  | tick =>
    have h1' : (bossUpdate ft spr zu { w with tick := w.tick + 1 }).dead = true := h1
    have hc := bossUpdate_dead_char ft spr zu { w with tick := w.tick + 1 }
      (by simp [h0]) h1'
    exact ⟨rfl, hc.1, hc.2.1, hc.2.2⟩

/-- Witness for the amended claim C2: the concrete phase-1 boss state after
nineHitTrace is killed by the next tick, through a completing death2 clip. -/
theorem boss_dead_only_by_death2_witness :
    (bossExec ftC 1 id 1 nineHitTrace).dead = false ∧
      (bossStep ftC 1 id .tick (bossExec ftC 1 id 1 nineHitTrace)).dead = true ∧
      bossSelect (bossExec ftC 1 id 1 nineHitTrace) = .bossDeath2 ∧
      (bossStep ftC 1 id .tick (bossExec ftC 1 id 1 nineHitTrace)).bossDefeated = true := by
  have h0 : (bossExec ftC 1 id 1 nineHitTrace).dead = false := rfl
  have h1 : (bossStep ftC 1 id .tick (bossExec ftC 1 id 1 nineHitTrace)).dead = true := rfl
  have hc := boss_dead_only_by_death2 ftC 1 id (bossExec ftC 1 id 1 nineHitTrace) .tick h0 h1
  exact ⟨h0, h1, hc.2.1, hc.2.2.2⟩

/-- A phase-2 boss state whose dispatch leaves it in the bossPhase2 clip (the
countdown has been driven to 0 by hits landing during the transition clips),
used to exhibit the scream transition. -/
def wPhase2C : BossWorld :=
  { daemon := true, state := .bossPhase2, frame := 1, dead := false,
    hitToDie := 0, zstate := .zombieHit, speed := 2, tick := 3,
    sounds := [], bossDefeated := false }

/-- Claim C4, counterexample: in phase 1 with HitToDie = 1 and the base state
hit (reachable: the ninth hit lands while the death1 clip is playing), the
next tick selects bossDeath2, not bossDeath1, and in fact kills the boss:
there is no death1 entry and no phase-2 transition at HitToDie = 1. -/
theorem boss_hitToDie1_phase1_enters_death2 :
    (bossExec ftC 1 id 1 nineHitTrace).daemon = false ∧
      (bossExec ftC 1 id 1 nineHitTrace).hitToDie = 1 ∧
      (bossExec ftC 1 id 1 nineHitTrace).zstate = .zombieHit ∧
      (bossStep ftC 1 id .tick (bossExec ftC 1 id 1 nineHitTrace)).state = .bossDeath2 ∧
      (bossStep ftC 1 id .tick (bossExec ftC 1 id 1 nineHitTrace)).dead = true ∧
      BossAnim.bossDeath2 ≠ BossAnim.bossDeath1 := by
  refine ⟨rfl, rfl, rfl, rfl, rfl, by decide⟩

/-- Claim C4, amended: the death1 clip is dispatched in phase 1 at
HitToDie = 2 (not 1) when the base state is hit; when the death1 clip
completes, the boss does not die: Daemon becomes true, the speed is set to
twice the sprinter-zombie speed, the first death sound plays, HitToDie is
left unchanged (effectively 2) and the boss enters the bossPhase2 transition
clip; the scream is wired to the completion of that transition clip, which
then hands over to the bossRunning state. -/
theorem boss_phase_transition (ft : BossAnim → FrameTag) (spr : Rat)
    (zu : ZombieState → ZombieState) (w : BossWorld) :
    (w.daemon = false → w.hitToDie = 2 → w.zstate = .zombieHit →
      bossSelect w = .bossDeath1) ∧
      (w.dead = false → bossSelect w = .bossDeath1 →
        Animate w.frame (w.tick + 1) (ft .bossDeath1) = (ft .bossDeath1).tTo →
        (bossStep ft spr zu .tick w).daemon = true ∧
          (bossStep ft spr zu .tick w).speed = spr * 2 ∧
          (bossStep ft spr zu .tick w).state = .bossPhase2 ∧
          (bossStep ft spr zu .tick w).dead = false ∧
          (bossStep ft spr zu .tick w).hitToDie = w.hitToDie ∧
          (bossStep ft spr zu .tick w).sounds = w.sounds ++ [soundBigZombieDeath1]) ∧
      (w.dead = false → bossSelect w = .bossPhase2 →
        Animate w.frame (w.tick + 1) (ft .bossPhase2) = (ft .bossPhase2).tTo →
        (bossStep ft spr zu .tick w).state = .bossRunning ∧
          (bossStep ft spr zu .tick w).sounds = w.sounds ++ [soundBigZombieScream] ∧
          (bossStep ft spr zu .tick w).dead = false) := by
  refine ⟨?_, ?_, ?_⟩
  · intro hd h2 hz
    simp [bossSelect, hd, h2, hz]
  · intro h0 hsel hfr
    exact bossUpdate_death1 ft spr zu { w with tick := w.tick + 1 } h0 hsel hfr
  · intro h0 hsel hfr
    exact bossUpdate_phase2 ft spr zu { w with tick := w.tick + 1 } h0 hsel hfr

/-- Witness for the amended claim C4: after eight hits the dispatch selects
death1; one tick later the clip completes and phase 2 begins with doubled
sprinter speed and no death; and a completing bossPhase2 clip screams and
hands over to bossRunning. -/
theorem boss_phase_transition_witness :
    bossSelect (bossExec ftC 1 id 1 eightHitTrace) = .bossDeath1 ∧
      (bossStep ftC 1 id .tick (bossExec ftC 1 id 1 deathOneTrace)).daemon = true ∧
      (bossStep ftC 1 id .tick (bossExec ftC 1 id 1 deathOneTrace)).state = .bossPhase2 ∧
      (bossStep ftC 1 id .tick (bossExec ftC 1 id 1 deathOneTrace)).dead = false ∧
      (bossStep ftC 1 id .tick wPhase2C).state = .bossRunning ∧
      (bossStep ftC 1 id .tick wPhase2C).sounds = wPhase2C.sounds ++ [soundBigZombieScream] :=
  ⟨(boss_phase_transition ftC 1 id (bossExec ftC 1 id 1 eightHitTrace)).1
      rfl rfl rfl,
    ((boss_phase_transition ftC 1 id (bossExec ftC 1 id 1 deathOneTrace)).2.1
      rfl rfl rfl).1,
    ((boss_phase_transition ftC 1 id (bossExec ftC 1 id 1 deathOneTrace)).2.1
      rfl rfl rfl).2.2.1,
    ((boss_phase_transition ftC 1 id (bossExec ftC 1 id 1 deathOneTrace)).2.1
      rfl rfl rfl).2.2.2.1,
    ((boss_phase_transition ftC 1 id wPhase2C).2.2 rfl rfl rfl).1,
    ((boss_phase_transition ftC 1 id wPhase2C).2.2 rfl rfl rfl).2.1⟩

/-!
Combat resolution: the Shoot function of gamescreen.go.  The player states
are constants of the player file (not among the sources); the enumeration
lists the states gamescreen.go refers to plus the ordinary movement states.
The spatial index is the external resolv collaborator: the ordered cells
that `Space.CellsInLine` returns for the line of fire are an input, each cell
holding its ordered objects.  A zombie is an object tagged "mob" carrying an
identifier into a hit-point table; Zombie.Hit is spec-modelled as the
one-unit HitToDie decrement.
-/

/-- Player behaviour states referenced by gamescreen.go (the movement states
idle and walking complete the enumeration; player.go is not in the sources). -/
inductive PlayerState where
  | playerIdle
  | playerWalking
  | playerShooting
  | playerReload
  | playerReady
  | playerUnready
  | playerDryFire
deriving DecidableEq, Repr

export PlayerState (playerIdle playerWalking playerShooting playerReload
  playerReady playerUnready playerDryFire)

/-- An object of the spatial index as Shoot sees it: whether it carries the
mob tag, and which zombie its Data pointer designates. -/
structure Obj where
  mob : Bool
  zid : Nat
deriving DecidableEq, Repr

/-- The hit-point table: HitToDie of each zombie, by identifier. -/
def HitTable : Type := Nat → Int

/-- Modelled from the spec: Zombie.Hit (zombie.go is not among the sources)
applies one unit of damage, decrementing HitToDie of the hit zombie. -/
def hitZombie (htd : HitTable) (z : Nat) : HitTable :=
  fun i => if i = z then htd i - 1 else htd i

/-- The inner loop of Shoot's trace: the first mob-tagged object of one cell. -/
def traceObjs : List Obj → Option Nat
  | [] => none
  | o :: os => if o.mob then some o.zid else traceObjs os

/-- The outer loop of Shoot's trace over the ordered cells of the line of
fire, stopping at the first cell containing a mob-tagged object. -/
def traceCells : List (List Obj) → Option Nat
  | [] => none
  | c :: cs =>
    match traceObjs c with
    | some z => some z
    | none => traceCells cs

/-- The result of one Shoot call: the player state and ammo afterwards, the
hit-point table afterwards, the sounds played and the sounds paused. -/
structure ShootRes where
  state : PlayerState
  ammo : Int
  htd : HitTable
  sounds : List SoundId
  paused : List SoundId

/-- Shoot from gamescreen.go.  In the shooting, ready and unready states it
is a plain no-op; in the reload state it interrupts the reload (pause the
reload sound, play the dry-fire sound, enter playerDryFire); otherwise with
no ammo it takes the same dry-fire path, and with ammo it plays the gunshot,
spends one round, enters playerShooting and walks the cells of the line of
fire, applying one Hit to the first mob-tagged object and stopping there. -/
def Shoot (cells : List (List Obj)) (st : PlayerState) (ammo : Int)
    (htd : HitTable) : ShootRes :=
  match st with
  | .playerShooting => ⟨st, ammo, htd, [], []⟩
  | .playerReady => ⟨st, ammo, htd, [], []⟩
  | .playerUnready => ⟨st, ammo, htd, [], []⟩
  | .playerReload => ⟨.playerDryFire, ammo, htd, [soundDryFire], [soundGunReload]⟩
  | _ =>
    if ammo < 1 then ⟨.playerDryFire, ammo, htd, [soundDryFire], [soundGunReload]⟩
    else
      match traceCells cells with
      | some z => ⟨.playerShooting, ammo - 1, hitZombie htd z,
          [soundGunShot, soundHit1], []⟩
      | none => ⟨.playerShooting, ammo - 1, htd, [soundGunShot], []⟩

/-- A player state can fire when Shoot reaches its default branch: not
shooting, not ready, not unready, not reloading. -/
def FireCapable (st : PlayerState) : Prop :=
  st ≠ playerShooting ∧ st ≠ playerReady ∧ st ≠ playerUnready ∧ st ≠ playerReload

instance (st : PlayerState) : Decidable (FireCapable st) := by
  unfold FireCapable; infer_instance

/-- The trace visits the objects of the line of fire in order: cell by cell,
and inside a cell object by object; the first mob-tagged object in that
flattened order is the one hit. -/
theorem traceCells_eq_first_mob (cells : List (List Obj)) :
    traceCells cells = (cells.flatten.find? (fun o => o.mob)).map Obj.zid := by
  induction cells with
  | nil => rfl
  | cons c cs ih =>
    rw [traceCells]
    have hc : ∀ os : List Obj,
        traceObjs os = ((os.find? (fun o => o.mob)).map Obj.zid) := by
      intro os
      induction os with
      | nil => rfl
      | cons o os iho =>
        rw [traceObjs]
        rcases hm : o.mob with _ | _
        · rw [List.find?_cons_of_neg _ (by simp [hm])]
          simpa [hm] using iho
        · rw [List.find?_cons_of_pos _ (by simp [hm])]
          simp [hm]
    rw [List.flatten_cons, List.find?_append, hc c]
    rcases hfind : c.find? (fun o => o.mob) with _ | o
    · simpa [hfind] using ih
    · simp [hfind]

/-- Claim C6: when a shot is actually fired (a fire-capable state with at
least one round), exactly one round is spent, the player enters the shooting
state, and the trace applies exactly one unit of damage to at most one
zombie: the first mob-tagged object in the ordered cells of the line of fire;
every other entry of the hit table is untouched, and the gunshot cue plays
(plus the hit cue exactly when something was hit). -/
theorem Shoot_single_hit (cells : List (List Obj)) (st : PlayerState) (ammo : Int)
    (htd : HitTable) (hst : FireCapable st) (hammo : 1 ≤ ammo) :
    (Shoot cells st ammo htd).ammo = ammo - 1 ∧
      (Shoot cells st ammo htd).state = playerShooting ∧
      traceCells cells = (cells.flatten.find? (fun o => o.mob)).map Obj.zid ∧
      (∀ z : Nat, traceCells cells = some z →
        (Shoot cells st ammo htd).htd z = htd z - 1 ∧
          (∀ i : Nat, i ≠ z → (Shoot cells st ammo htd).htd i = htd i) ∧
          (Shoot cells st ammo htd).sounds = [soundGunShot, soundHit1]) ∧
      (traceCells cells = none →
        (∀ i : Nat, (Shoot cells st ammo htd).htd i = htd i) ∧
          (Shoot cells st ammo htd).sounds = [soundGunShot]) := by
  have hnl : ¬ ammo < 1 := not_lt.mpr hammo
  obtain ⟨h1, h2, h3, h4⟩ := hst
  have hchar := traceCells_eq_first_mob cells
  cases st
  case playerShooting => exact absurd rfl h1
  case playerReady => exact absurd rfl h2
  case playerUnready => exact absurd rfl h3
  case playerReload => exact absurd rfl h4
  all_goals (
    simp only [Shoot]
    rw [if_neg hnl]
    rcases htr : traceCells cells with _ | z
    · refine ⟨rfl, rfl, htr ▸ hchar, ?_, ?_⟩
      · intro z hz
        exact absurd hz (by simp)
      · intro _
        exact ⟨fun i => rfl, rfl⟩
    · refine ⟨rfl, rfl, htr ▸ hchar, ?_, ?_⟩
      · intro z' hz'
        have hzz : z = z' := by
          simpa using hz'
        subst hzz
        refine ⟨by simp [hitZombie], ?_, rfl⟩
        intro i hi
        simp [hitZombie, hi]
      · intro hnone
        exact absurd hnone (by simp))

/-- A two-cell line of fire: the first cell holds a wall object, the second
holds two mob-tagged zombies, 5 in front of 7. -/
def cellsW : List (List Obj) := [[⟨false, 0⟩], [⟨true, 5⟩, ⟨true, 7⟩]]

/-- A hit table giving every zombie ten remaining hits. -/
def htdW : HitTable := fun _ => 10

/-- Witness for claim C6: from the idle state with three rounds, one round is
spent, zombie 5 (the first mob along the line) loses exactly one hit point
and zombie 7 none. -/
theorem Shoot_single_hit_witness :
    FireCapable playerIdle ∧ (1 : Int) ≤ 3 ∧ traceCells cellsW = some 5 ∧
      (Shoot cellsW playerIdle 3 htdW).ammo = 3 - 1 ∧
      (Shoot cellsW playerIdle 3 htdW).state = playerShooting ∧
      (Shoot cellsW playerIdle 3 htdW).htd 5 = htdW 5 - 1 ∧
      (Shoot cellsW playerIdle 3 htdW).htd 7 = htdW 7 ∧
      (Shoot cellsW playerIdle 3 htdW).sounds = [soundGunShot, soundHit1] := by
  have h := Shoot_single_hit cellsW playerIdle 3 htdW (by decide) (by decide)
  have hz := h.2.2.2.1 5 (by decide)
  exact ⟨by decide, by decide, by decide, h.1, h.2.1, hz.1,
    hz.2.1 7 (by decide), hz.2.2⟩

/-- Claim C5, counterexample: with no ammo but in the playerShooting state
(the state right after firing the last round), Shoot is a plain no-op: it
does not take the dry-fire path, plays no dry-fire sound and does not enter
playerDryFire, contradicting the claimed dry-fire feedback for every state
with Ammo = 0. -/
theorem Shoot_no_ammo_shooting_noop :
    (Shoot cellsW playerShooting 0 htdW).state = playerShooting ∧
      (Shoot cellsW playerShooting 0 htdW).state ≠ playerDryFire ∧
      (Shoot cellsW playerShooting 0 htdW).sounds = [] ∧
      soundDryFire ∉ (Shoot cellsW playerShooting 0 htdW).sounds := by
  refine ⟨rfl, by decide, rfl, by decide⟩

/-- Claim C5, amended: with Ammo = 0, Shoot never damages a zombie, never
spends ammo and never plays the gunshot or hit cues; the dry-fire feedback
path (dry-fire sound, playerDryFire state) is taken in the reload state and
in every firing-capable state, while in the shooting, ready and unready
states the call is a silent no-op that leaves the state unchanged. -/
theorem Shoot_no_ammo (cells : List (List Obj)) (st : PlayerState) (ammo : Int)
    (htd : HitTable) (h0 : ammo = 0) :
    (∀ i, (Shoot cells st ammo htd).htd i = htd i) ∧
      (Shoot cells st ammo htd).ammo = ammo ∧
      soundGunShot ∉ (Shoot cells st ammo htd).sounds ∧
      soundHit1 ∉ (Shoot cells st ammo htd).sounds ∧
      ((st = playerShooting ∨ st = playerReady ∨ st = playerUnready) →
        (Shoot cells st ammo htd).state = st ∧
          (Shoot cells st ammo htd).sounds = []) ∧
      (¬ (st = playerShooting ∨ st = playerReady ∨ st = playerUnready) →
        (Shoot cells st ammo htd).state = playerDryFire ∧
          (Shoot cells st ammo htd).sounds = [soundDryFire]) := by
  subst h0
  cases st <;> simp [Shoot]

/-- Witness for the amended claim C5: walking with an empty gun dry-fires. -/
theorem Shoot_no_ammo_witness :
    (0 : Int) = 0 ∧
      (Shoot cellsW playerWalking 0 htdW).htd 5 = htdW 5 ∧
      (Shoot cellsW playerWalking 0 htdW).ammo = 0 ∧
      (Shoot cellsW playerWalking 0 htdW).state = playerDryFire ∧
      (Shoot cellsW playerWalking 0 htdW).sounds = [soundDryFire] := by
  have h := Shoot_no_ammo cellsW playerWalking 0 htdW rfl
  exact ⟨rfl, h.1 5, h.2.1, (h.2.2.2.2.2 (by decide)).1, (h.2.2.2.2.2 (by decide)).2⟩

/-!
The per-tick pipeline of GameScreen.Update, from the input handling down to
its return value.  The external resolv queries (Check, Overlaps,
Shape.Intersection) and the per-agent updates of player, dog, zombies and
spawn points are collaborator outcomes; they enter as an environment record,
exactly in the shape the code consumes them: each Check either returns
nothing or a first object, against which Overlaps (and for the player also
the shape intersection) is evaluated.  The reload/shoot input handling and
the agent updates touch neither Checkpoint nor the return value; the dog's
own update may leave the dog in any mode, which the environment supplies. -/

/-- The game-state values GameScreen.Update returns. -/
inductive GameState where
  | gameRunning
  | gameOver
  | gameWon
deriving DecidableEq, Repr

export GameState (gameRunning gameOver gameWon)

/-- Dog behaviour modes; dogDead is the terminal mode checked by Update
(dog.go is not among the sources; the modes follow the spec's enumeration
walking/sniffing/sitting/dead). -/
inductive DogMode where
  | dogWalking
  | dogSniffing
  | dogSitting
  | dogDead
deriving DecidableEq, Repr

export DogMode (dogWalking dogSniffing dogSitting dogDead)

/-- Outcomes of the external queries during one GameScreen.Update tick.
playerHitByZombie is the conjunction of the three nested player checks
(mob Check hit, Overlaps with its first object, shape intersection);
checkpointHit gives, when the checkpoint Check returns objects, whether the
player overlaps the first one and that object's Data identifier; endHit and
dogHitByZombie likewise report the overlap test against the first object of
their Check, when it returns any. -/
structure UpdateEnv where
  playerHitByZombie : Bool
  checkpointHit : Option (Bool × Int)
  endHit : Option Bool
  dogHitByZombie : Option Bool
  dogModeAfterUpdate : DogMode

/-- The GameScreen fields the modelled pipeline reads and writes. -/
structure GS where
  tick : Nat
  checkpoint : Int
  dogMode : DogMode
deriving DecidableEq, Repr

/-- Result of one GameScreen.Update call: the new screen state, the returned
game state, the checkpoint voice lines played (by zero-based index) and the
sounds played. -/
structure UpdRes where
  g : GS
  state : GameState
  voices : List Int
  sounds : List SoundId
deriving DecidableEq, Repr

/-- GameScreen.Update from gamescreen.go, in source order: tick increment and
agent updates, then player-zombie death (early gameOver), then the checkpoint
pickup (assign and play the voice only when the identifier exceeds the
current checkpoint), then the End overlap (early gameWon), then the
dog-zombie overlap setting dogDead, then the dogDead loss check. -/
def GameScreenUpdate (g : GS) (env : UpdateEnv) : UpdRes :=
  let g1 : GS := { g with tick := g.tick + 1, dogMode := env.dogModeAfterUpdate }
  if env.playerHitByZombie then
    { g := g1, state := gameOver, voices := [], sounds := [soundPlayerDies] }
  else
    let cp :=
      match env.checkpointHit with
      | some (ov, id) =>
        if ov then
          if g1.checkpoint < id then ({ g1 with checkpoint := id }, [id - 1])
          else (g1, ([] : List Int))
        else (g1, [])
      | none => (g1, [])
    match env.endHit with
    | some true => { g := cp.1, state := gameWon, voices := cp.2, sounds := [] }
    | _ =>
      let g3 :=
        match env.dogHitByZombie with
        | some true => { cp.1 with dogMode := dogDead }
        | _ => cp.1
      if g3.dogMode = dogDead then
        { g := g3, state := gameOver, voices := cp.2, sounds := [] }
      else
        { g := g3, state := gameRunning, voices := cp.2, sounds := [] }

/-- Claim C9, counterexample: a tick on which a zombie overlaps the dog but
the player simultaneously reaches the End: the End check runs first, Update
returns gameWon and never reaches the dog-zombie check, so the dog is not
set to the dead mode and no loss is reported. -/
theorem dog_death_preempted_by_end :
    (GameScreenUpdate ⟨0, 0, dogWalking⟩
        ⟨false, none, some true, some true, dogWalking⟩).state = gameWon ∧
      (GameScreenUpdate ⟨0, 0, dogWalking⟩
        ⟨false, none, some true, some true, dogWalking⟩).state ≠ gameOver ∧
      (GameScreenUpdate ⟨0, 0, dogWalking⟩
        ⟨false, none, some true, some true, dogWalking⟩).g.dogMode ≠ dogDead := by
  refine ⟨rfl, by decide, by decide⟩

/-- Claim C9, amended: on every tick that reaches the dog-zombie check — the
player was not killed by a zombie and did not overlap the End — a zombie
overlap on the dog (the overlap test against the first object of the dog's
mob query) immediately sets the dog to the dead mode, and the same Update
call returns gameOver. -/
theorem dog_overlap_death (g : GS) (env : UpdateEnv)
    (hp : env.playerHitByZombie = false) (he : env.endHit ≠ some true)
    (hd : env.dogHitByZombie = some true) :
    (GameScreenUpdate g env).g.dogMode = dogDead ∧
      (GameScreenUpdate g env).state = gameOver := by
  rcases he' : env.endHit with _ | b
  · simp [GameScreenUpdate, hp, hd, he']
  · cases b
    · simp [GameScreenUpdate, hp, hd, he']
    · exact absurd he' he

/-- Witness for the amended claim C9: no competing end or player event, the
dog's mob query overlaps: dead dog, game over. -/
theorem dog_overlap_death_witness :
    (⟨false, none, none, some true, dogWalking⟩ : UpdateEnv).playerHitByZombie = false ∧
      (⟨false, none, none, some true, dogWalking⟩ : UpdateEnv).endHit ≠ some true ∧
      (GameScreenUpdate ⟨7, 2, dogWalking⟩
        ⟨false, none, none, some true, dogWalking⟩).g.dogMode = dogDead ∧
      (GameScreenUpdate ⟨7, 2, dogWalking⟩
        ⟨false, none, none, some true, dogWalking⟩).state = gameOver := by
  have h := dog_overlap_death ⟨7, 2, dogWalking⟩
    ⟨false, none, none, some true, dogWalking⟩ rfl (by decide) rfl
  exact ⟨rfl, by decide, h.1, h.2⟩

/-- Claim C10: over one Update tick the Checkpoint field never decreases; it
changes only when the checkpoint query overlaps an object whose identifier
strictly exceeds the current value, in which case it becomes that identifier
and exactly the voice line of that identifier plays; when it does not change,
no checkpoint voice plays. -/
theorem checkpoint_monotone (g : GS) (env : UpdateEnv) :
    g.checkpoint ≤ (GameScreenUpdate g env).g.checkpoint ∧
      ((GameScreenUpdate g env).g.checkpoint ≠ g.checkpoint →
        ∃ id : Int, env.checkpointHit = some (true, id) ∧ g.checkpoint < id ∧
          (GameScreenUpdate g env).g.checkpoint = id ∧
          (GameScreenUpdate g env).voices = [id - 1]) ∧
      ((GameScreenUpdate g env).g.checkpoint = g.checkpoint →
        (GameScreenUpdate g env).voices = []) := by
  by_cases hp : env.playerHitByZombie = true
  · simp [GameScreenUpdate, hp]
  · have hp' : env.playerHitByZombie = false := by simpa using hp
    rcases hcp : env.checkpointHit with _ | ⟨ov, id⟩ <;>
      rcases hend : env.endHit with _ | (_ | _) <;>
      rcases hdog : env.dogHitByZombie with _ | (_ | _) <;>
      simp [GameScreenUpdate, hp', hcp, hend, hdog] <;>
      (try split_ifs) <;>
      (try simp_all) <;>
      (try omega)

/-- Witness for claim C10: the player at checkpoint 2 walks into checkpoint
3: the field rises to 3 and exactly the third voice line plays. -/
theorem checkpoint_monotone_witness :
    (⟨0, 2, dogWalking⟩ : GS).checkpoint ≤
        (GameScreenUpdate ⟨0, 2, dogWalking⟩
          ⟨false, some (true, 3), none, none, dogSniffing⟩).g.checkpoint ∧
      (GameScreenUpdate ⟨0, 2, dogWalking⟩
          ⟨false, some (true, 3), none, none, dogSniffing⟩).g.checkpoint = 3 ∧
      (GameScreenUpdate ⟨0, 2, dogWalking⟩
          ⟨false, some (true, 3), none, none, dogSniffing⟩).voices = [3 - 1] := by
  have h := checkpoint_monotone ⟨0, 2, dogWalking⟩
    ⟨false, some (true, 3), none, none, dogSniffing⟩
  obtain ⟨id, hcp, hlt, hnew, hv⟩ := h.2.1 (by decide)
  have hid : id = 3 := by
    have h3 : (some (true, 3) : Option (Bool × Int)) = some (true, id) := hcp
    simpa using h3.symm
  exact ⟨h.1, by rw [hnew, hid], by rw [hv, hid]⟩

/-!
NormalizeVector and CalcDistance from gamescreen.go operate on Go float64
values.  The embedding models IEEE-754 arithmetic symbolically on exact
values: a float is NaN, an infinity, or an exactly represented number
(carried as a rational).  Rounding, underflow and overflow of float64 are
NOT modelled — the arithmetic on numbers is exact, and the square root is
defined only where its result is exact — so the model is faithful to the
program only on computations whose every intermediate value float64
represents exactly.  The theorems below therefore use it only on the
zero-magnitude path (where every step is exact: 0-0, 0*0, 0+0, sqrt(0),
0/0) and draw no finiteness conclusion for other inputs, since a tiny
nonzero component can underflow to a zero magnitude in the real program
(e.g. Pow(2^-538, 2) is 0 in float64) and produce infinities.  The IEEE
special-value rules the code exercises (0/0 = NaN, x/0 = +-Inf for
x /= 0, NaN propagation) are spelled out. -/

/-- A symbolic float64 value: NaN, an infinity, or an exact number. -/
inductive FV where
  | nan
  | pinf
  | ninf
  | num (q : Rat)
deriving DecidableEq, Repr

/-- A component is invalid when it is NaN or an infinity. -/
def FV.invalid : FV → Bool
  | .num _ => false
  | _ => true

/-- IEEE subtraction on the modelled values. -/
def fsub : FV → FV → FV
  | .nan, _ => .nan
  | _, .nan => .nan
  | .pinf, .pinf => .nan
  | .pinf, _ => .pinf
  | .ninf, .ninf => .nan
  | .ninf, _ => .ninf
  | .num _, .pinf => .ninf
  | .num _, .ninf => .pinf
  | .num a, .num b => .num (a - b)

/-- IEEE addition on the modelled values; on numbers it is the exact sum
(no float64 rounding or overflow: see the section comment). -/
def fadd : FV → FV → FV
  | .nan, _ => .nan
  | _, .nan => .nan
  | .pinf, .ninf => .nan
  | .pinf, _ => .pinf
  | .ninf, .pinf => .nan
  | .ninf, _ => .ninf
  | .num _, .pinf => .pinf
  | .num _, .ninf => .ninf
  | .num a, .num b => .num (a + b)

/-- Go's math.Pow with exponent 2 on the modelled values; on numbers it is
the exact square (no float64 rounding, underflow or overflow: see the
section comment). -/
def fpow2 : FV → FV
  | .nan => .nan
  | .pinf => .pinf
  | .ninf => .pinf
  | .num a => .num (a * a)

/-- IEEE division on the modelled values (signed zero is not modelled: a
finite value divided by an infinity is the number zero). -/
def fdiv : FV → FV → FV
  | .nan, _ => .nan
  | _, .nan => .nan
  | .pinf, .pinf => .nan
  | .pinf, .ninf => .nan
  | .pinf, .num b => if b < 0 then .ninf else .pinf
  | .ninf, .pinf => .nan
  | .ninf, .ninf => .nan
  | .ninf, .num b => if b < 0 then .pinf else .ninf
  | .num _, .pinf => .num 0
  | .num _, .ninf => .num 0
  | .num a, .num b =>
    if b = 0 then
      if a = 0 then .nan else if a < 0 then .ninf else .pinf
    else .num (a / b)

/-- The exact rational square root, when it exists: the candidate root built
from the integer square roots of numerator and denominator, kept only when
it squares back to the input. -/
def exactSqrt (q : Rat) : Option Rat :=
  if q < 0 then none
  else if (((q.num.toNat.sqrt : Int) : Rat) / ((q.den.sqrt : Int) : Rat)) *
      (((q.num.toNat.sqrt : Int) : Rat) / ((q.den.sqrt : Int) : Rat)) = q then
    some (((q.num.toNat.sqrt : Int) : Rat) / ((q.den.sqrt : Int) : Rat))
  else none

/-- Go's math.Sqrt on the modelled values; `none` marks an inexact (hence
unmodelled) result, never produced on the inputs the theorems use. -/
def fsqrt : FV → Option FV
  | .nan => some .nan
  | .pinf => some .pinf
  | .ninf => some .nan
  | .num a =>
    if a < 0 then some .nan
    else
      match exactSqrt a with
      | some r => some (.num r)
      | none => none

/-- A 2D vector of modelled float64 components, mirroring Coord. -/
structure FCoord where
  x : FV
  y : FV
deriving DecidableEq, Repr

/-- CalcDistance from gamescreen.go: Sqrt(Pow(x1-x2, 2) + Pow(y1-y2, 2)). -/
def CalcDistance (x1 y1 x2 y2 : FV) : Option FV :=
  fsqrt (fadd (fpow2 (fsub x1 x2)) (fpow2 (fsub y1 y2)))

/-- NormalizeVector from gamescreen.go: each component divided by the
magnitude CalcDistance(v.X, v.Y, 0, 0), with no guard of any kind. -/
def NormalizeVector (v : FCoord) : Option FCoord :=
  match CalcDistance v.x v.y (.num 0) (.num 0) with
  | some m => some ⟨fdiv v.x m, fdiv v.y m⟩
  | none => none

theorem exactSqrt_zero : exactSqrt 0 = some 0 := by
  unfold exactSqrt
  rw [if_neg (by norm_num)]
  norm_num

theorem CalcDistance_zero :
    CalcDistance (.num 0) (.num 0) (.num 0) (.num 0) = some (.num 0) := by
  unfold CalcDistance
  simp only [fsub, fpow2, fadd]
  have h : ((0 : Rat) - 0) * ((0 : Rat) - 0) + ((0 : Rat) - 0) * ((0 : Rat) - 0) = 0 := by
    norm_num
  rw [h]
  simp only [fsqrt]
  rw [if_neg (by norm_num), exactSqrt_zero]

/-- Claim C8, counterexample: the zero vector is not special-cased; its
magnitude is exactly zero and both components become 0/0, which is NaN
under IEEE-754 — the invalid result the claim asserts can never appear. -/
theorem NormalizeVector_zero_nan :
    NormalizeVector ⟨.num 0, .num 0⟩ = some ⟨.nan, .nan⟩ ∧
      FV.invalid .nan = true := by
  constructor
  · unfold NormalizeVector
    rw [CalcDistance_zero]
    simp [fdiv]
  · rfl

/-- Claim C8, amended: NormalizeVector has no zero-magnitude guard: the
zero-length vector is not special-cased, and dividing by a zero magnitude
yields invalid components — NaN for a zero component (0/0) and an infinity
for a nonzero one — so the claimed invariant that the result never holds
NaN or Inf fails at zero magnitude. -/
theorem NormalizeVector_zero_magnitude_invalid (a b : Rat)
    (hm : CalcDistance (.num a) (.num b) (.num 0) (.num 0) = some (.num 0)) :
    NormalizeVector ⟨.num a, .num b⟩ =
        some ⟨fdiv (.num a) (.num 0), fdiv (.num b) (.num 0)⟩ ∧
      FV.invalid (fdiv (.num a) (.num 0)) = true ∧
      FV.invalid (fdiv (.num b) (.num 0)) = true := by
  refine ⟨?_, ?_, ?_⟩
  · unfold NormalizeVector
    rw [hm]
  · simp only [fdiv]
    split_ifs <;> simp_all [FV.invalid]
  · simp only [fdiv]
    split_ifs <;> simp_all [FV.invalid]

/-- Witness for the amended claim C8: the zero vector has exact magnitude
zero and both components of the result are the invalid 0/0. -/
theorem NormalizeVector_zero_magnitude_invalid_witness :
    CalcDistance (.num 0) (.num 0) (.num 0) (.num 0) = some (.num 0) ∧
      NormalizeVector ⟨.num 0, .num 0⟩ =
        some ⟨fdiv (.num 0) (.num 0), fdiv (.num 0) (.num 0)⟩ ∧
      FV.invalid (fdiv (.num 0) (.num 0)) = true := by
  have h := NormalizeVector_zero_magnitude_invalid 0 0 CalcDistance_zero
  exact ⟨CalcDistance_zero, h.1, h.2.1⟩

end EscortMission
